import Mathlib

set_option maxRecDepth 4096

/-!
Verification of the compute-job worker (`src/worker.py`).

The worker pipeline is: load container parameters from the environment,
optionally execute a remote query (production mode), read the `results`
table of a local SQLite database through one of several extraction
strategies, and serialize the extracted keyed mapping to a JSON artifact
with `json.dump(data, f, indent=4)`.

SQLite values are modelled by `JValue` (NULL, INTEGER, TEXT, BLOB; REAL is
out of scope of the shallow embedding).  A row, as produced by
`dict(sqlite3.Row)`, is an association list from column names to values; a
Python `dict` keyed by column values is an association list with
first-occurrence key positions and last-write-wins updates (`dictInsert`).

The JSON writer is modelled at the chunk level, mirroring CPython's
`json.JSONEncoder.iterencode` with `indent=4` (including `ensure_ascii`
escaping with `\uXXXX` and surrogate pairs) together with the fact that
`json.dump` writes each chunk to the already-truncated file as it is
produced: `dumpDataset` returns both the characters actually written and
whether serialization ran to completion.
-/

namespace Worker

/-- A SQLite column value as seen by the worker: NULL, INTEGER, TEXT or BLOB.
(REAL values are excluded from the model: floating point is outside the
shallow embedding.) -/
inductive JValue where
  | null : JValue
  | int : Int → JValue
  | str : String → JValue
  | blob : List Nat → JValue
deriving DecidableEq

/-- One row of the `results` table as `dict(sqlite3.Row)` produces it:
column names paired with values, in column order. -/
abbrev Row := List (String × JValue)

/-- An extracted dataset: a Python dict from key values to rows, as an
association list in dict iteration order. -/
abbrev Dataset := List (JValue × Row)

/-- `row_dict[col]` lookup: the value of the first column named `col`. -/
def rowGet (r : Row) (col : String) : Option JValue :=
  match r with
  | [] => none
  | p :: ps => if p.1 = col then some p.2 else rowGet ps col

/-- The projection a `SELECT c1, c2, ... FROM results` row carries: exactly
the selected columns, in selection order; `none` if a column is absent. -/
def selectCols (cols : List String) (r : Row) : Option Row :=
  match cols with
  | [] => some []
  | c :: cs =>
    match rowGet r c, selectCols cs r with
    | some v, some rest => some ((c, v) :: rest)
    | _, _ => none

/-- Project every row of the table (the shape of the rows a SELECT returns). -/
def projectTable (cols : List String) (table : List Row) : Option (List Row) :=
  match table with
  | [] => some []
  | r :: rs =>
    match selectCols cols r, projectTable cols rs with
    | some pr, some prs => some (pr :: prs)
    | _, _ => none

/-- Whether a Python dict holds key `k`. -/
def dictMem (k : JValue) (m : Dataset) : Bool :=
  match m with
  | [] => false
  | p :: ps => decide (p.1 = k) || dictMem k ps

/-- `d[k] = v` on a Python dict: replace in place if the key is present
(keeping its position), append otherwise. -/
def dictInsert (m : Dataset) (k : JValue) (v : Row) : Dataset :=
  if dictMem k m then m.map (fun p => if p.1 = k then (p.1, v) else p)
  else m ++ [(k, v)]

/-- Dict lookup, for stating what a built mapping holds. -/
def dictFind (k : JValue) (m : Dataset) : Option Row :=
  match m with
  | [] => none
  | p :: ps => if p.1 = k then some p.2 else dictFind k ps

/-- The last row of `rows` whose `col` value is `k`, if any (the row whose
attributes a last-write-wins dict build retains). -/
def lastWith (col : String) (k : JValue) (rows : List Row) : Option Row :=
  match rows with
  | [] => none
  | r :: rs =>
    match lastWith col k rs with
    | some x => some x
    | none => if rowGet r col = some k then some r else none

/-- Decimal digit character, as `str(int)` renders digits. -/
def digitChar (d : Nat) : Char :=
  match d with
  | 0 => '0' | 1 => '1' | 2 => '2' | 3 => '3' | 4 => '4'
  | 5 => '5' | 6 => '6' | 7 => '7' | 8 => '8' | _ => '9'

/-- Decimal digits of `n`, most significant first: the characters of
Python's `str(n)` for a natural number. -/
def natDecChars (n : Nat) : List Char :=
  if _h : n < 10 then [digitChar n]
  else natDecChars (n / 10) ++ [digitChar (n % 10)]
termination_by n
decreasing_by exact Nat.div_lt_self (by omega) (by omega)

/-- Python's `str(n)` for a natural number. -/
def natDec (n : Nat) : String := String.mk (natDecChars n)

/-- Python's `str(i)` for an `int`: optional minus sign, then digits. -/
def intDec (i : Int) : String :=
  if i < 0 then String.mk ('-' :: natDecChars i.natAbs) else natDec i.natAbs

/-- The keyed-extraction loop shared by the strategy functions: for each
row, read the key column (`KeyError` if the row's dict lacks it) and do
`mapping[key] = row_dict`. -/
def extractLoop (keyCol : String) (acc : Dataset) (rows : List Row) :
    Except String Dataset :=
  match rows with
  | [] => .ok acc
  | r :: rs =>
    match rowGet r keyCol with
    | none => .error ("KeyError: " ++ keyCol)
    | some k => extractLoop keyCol (dictInsert acc k r) rs

/-- The columns `get_submissions` selects. -/
def submissionCols : List String :=
  ["SubmissionID", "UserID", "SubmissionDate", "SubmissionReference"]

/-- The columns `get_submission_chats` selects — note `SubmissionChatID`
is NOT among them, although the loop body then reads it from the row dict. -/
def chatCols : List String :=
  ["FirstMessageDate", "LastMessageDate", "ParticipantCount"]

/-- `get_users`: `SELECT * FROM results`, keyed by `row_dict['UserID']`.
`db = none` models a database access failure (sqlite3.Error re-raised). -/
def get_users (db : Option (List Row)) : Except String Dataset :=
  match db with
  | none => .error "sqlite3.Error"
  | some table => extractLoop "UserID" [] table

/-- `get_submissions`: `SELECT SubmissionID, UserID, SubmissionDate,
SubmissionReference FROM results`, keyed by `row_dict['SubmissionID']`. -/
def get_submissions (db : Option (List Row)) : Except String Dataset :=
  match db with
  | none => .error "sqlite3.Error"
  | some table =>
    match projectTable submissionCols table with
    | none => .error "sqlite3.Error: no such column"
    | some rows => extractLoop "SubmissionID" [] rows

/-- `get_submission_chats` (the active strategy): `SELECT FirstMessageDate,
LastMessageDate, ParticipantCount FROM results`, then
`chats[row_dict['SubmissionChatID']] = row_dict` — but `SubmissionChatID`
was not selected, so the row dict never holds it. -/
def get_submission_chats (db : Option (List Row)) : Except String Dataset :=
  match db with
  | none => .error "sqlite3.Error"
  | some table =>
    match projectTable chatCols table with
    | none => .error "sqlite3.Error: no such column"
    | some rows => extractLoop "SubmissionChatID" [] rows

/-- The loop of `get_chat_messages`: `messages[str(index_counter)] = row_dict`
with a 0-based counter incremented per row. -/
def msgLoop (i : Nat) (acc : Dataset) (rows : List Row) : Dataset :=
  match rows with
  | [] => acc
  | r :: rs => msgLoop (i + 1) (dictInsert acc (JValue.str (natDec i)) r) rs

/-- `get_chat_messages`: `SELECT SenderID FROM results LIMIT 10`, keyed by
the synthetic 0-based position of each returned row. -/
def get_chat_messages (db : Option (List Row)) : Except String Dataset :=
  match db with
  | none => .error "sqlite3.Error"
  | some table =>
    match projectTable ["SenderID"] table with
    | none => .error "sqlite3.Error: no such column"
    | some rows => .ok (msgLoop 0 [] (rows.take 10))

/-! ### The JSON artifact writer (`save_stats_to_json`)

`json.dump(data, f, indent=4)` over a file freshly opened with mode `"w"`:
the open truncates the file, then the encoder's chunks are written one by
one until serialization either completes or raises (`TypeError` on a value
or key with no JSON form, e.g. a BLOB). -/

/-- Hexadecimal digit character, lowercase, as CPython's `'\\u{0:04x}'`
formatting renders it. -/
def hexDig (d : Nat) : Char :=
  match d with
  | 0 => '0' | 1 => '1' | 2 => '2' | 3 => '3' | 4 => '4'
  | 5 => '5' | 6 => '6' | 7 => '7' | 8 => '8' | 9 => '9'
  | 10 => 'a' | 11 => 'b' | 12 => 'c' | 13 => 'd' | 14 => 'e' | _ => 'f'

/-- Four zero-padded lowercase hex digits of `n < 0x10000`. -/
def hex4 (n : Nat) : List Char :=
  [hexDig (n / 4096 % 16), hexDig (n / 256 % 16), hexDig (n / 16 % 16), hexDig (n % 16)]

/-- One character as `json.dumps` (default `ensure_ascii=True`) emits it
inside a string literal: the two-character escapes of `ESCAPE_DCT`, the
`\uXXXX` form for other control or non-ASCII characters (a surrogate pair
beyond the BMP), and the character itself otherwise. -/
def escChar (c : Char) : List Char :=
  if c = '"' then ['\\', '"']
  else if c = '\\' then ['\\', '\\']
  else if c = Char.ofNat 8 then ['\\', 'b']
  else if c = Char.ofNat 9 then ['\\', 't']
  else if c = Char.ofNat 10 then ['\\', 'n']
  else if c = Char.ofNat 12 then ['\\', 'f']
  else if c = Char.ofNat 13 then ['\\', 'r']
  else if c.toNat < 32 ∨ 126 < c.toNat then
    if c.toNat < 65536 then '\\' :: 'u' :: hex4 c.toNat
    else
      ('\\' :: 'u' :: hex4 (55296 + (c.toNat - 65536) / 1024)) ++
      ('\\' :: 'u' :: hex4 (56320 + (c.toNat - 65536) % 1024))
  else [c]

/-- `escChar` over a whole character list. -/
def escapeChars (cs : List Char) : List Char :=
  match cs with
  | [] => []
  | c :: cs => escChar c ++ escapeChars cs

/-- A JSON string literal for `s`: quote, escaped body, quote. -/
def strLit (s : String) : List Char :=
  '"' :: (escapeChars s.data ++ ['"'])

/-- The JSON text of one scalar value; `none` when the value has no JSON
form (a BLOB raises `TypeError: Object of type bytes is not JSON
serializable`). -/
def dumpScalar (v : JValue) : Option (List Char) :=
  match v with
  | .null => some ['n', 'u', 'l', 'l']
  | .int i => some (intDec i).data
  | .str s => some (strLit s)
  | .blob _ => none

/-- The member-name string for a dict key, as the encoder coerces keys:
strings stay themselves, ints render as `str(int)`, `None` becomes
`"null"`; a BLOB key raises `TypeError` (keys must be str/int/float/bool
or None). -/
def stringifyKey (k : JValue) : Option String :=
  match k with
  | .str s => some s
  | .int i => some (intDec i)
  | .null => some "null"
  | .blob _ => none

/-- Newline followed by the `indent=4` indentation of nesting level `lvl`. -/
def nlIndent (lvl : Nat) : List Char :=
  '\n' :: List.replicate (4 * lvl) ' '

/-- The chunks written for the members of an inner (row) object at nesting
level `lvl`, and whether all of them were serialized.  The encoder yields
the separator, the escaped member name and `": "` before encoding the
value, so a `TypeError` on a value leaves exactly that prefix written. -/
def dumpRowEntries (lvl : Nat) (first : Bool) (entries : List (String × JValue)) :
    List Char × Bool :=
  match entries with
  | [] => ([], true)
  | (k, v) :: rest =>
    let sep := if first then [] else ',' :: nlIndent lvl
    match dumpScalar v with
    | none => (sep ++ strLit k ++ [':', ' '], false)
    | some vs =>
      let tail := dumpRowEntries lvl false rest
      (sep ++ strLit k ++ (':' :: ' ' :: vs) ++ tail.1, tail.2)

/-- The chunks written for one row rendered as a JSON object whose closing
brace sits at indentation level `lvl` (members one level deeper). -/
def dumpRow (lvl : Nat) (r : Row) : List Char × Bool :=
  match r with
  | [] => (['{', '}'], true)
  | _ =>
    let body := dumpRowEntries (lvl + 1) true r
    ('{' :: nlIndent (lvl + 1) ++ body.1 ++
      (if body.2 then nlIndent lvl ++ ['}'] else []), body.2)

/-- The chunks written for the top-level members of the dataset object.  A
key with no string form raises before that member's separator is yielded;
a failure inside a member's value object stops everything after it. -/
def dumpDatasetEntries (first : Bool) (d : Dataset) : List Char × Bool :=
  match d with
  | [] => ([], true)
  | (k, row) :: rest =>
    match stringifyKey k with
    | none => ([], false)
    | some ks =>
      let sep := if first then [] else ',' :: nlIndent 1
      let inner := dumpRow 1 row
      if inner.2 then
        let tail := dumpDatasetEntries false rest
        (sep ++ strLit ks ++ (':' :: ' ' :: inner.1) ++ tail.1, tail.2)
      else (sep ++ strLit ks ++ (':' :: ' ' :: inner.1), false)

/-- All characters `json.dump(data, f, indent=4)` writes to the freshly
truncated file, and whether serialization completed. -/
def dumpDataset (d : Dataset) : List Char × Bool :=
  match d with
  | [] => (['{', '}'], true)
  | _ =>
    let body := dumpDatasetEntries true d
    ('{' :: nlIndent 1 ++ body.1 ++
      (if body.2 then ['\n', '}'] else []), body.2)

/-- The complete serialization of a dataset, when it exists. -/
def dumps (d : Dataset) : Option String :=
  let r := dumpDataset d
  if r.2 then some (String.mk r.1) else none

/-- `save_stats_to_json(data, output_path)` acting on the observable file
state: `mkdirOk = false` models a failure creating the output directory
(before the file is touched), otherwise the file is truncated and the
encoder's chunks are written until serialization completes or raises.
Returns the file content afterwards and whether the call returned
normally (`false` = the function re-raised). -/
def save_stats_to_json (data : Dataset) (mkdirOk : Bool) (prior : Option String) :
    Option String × Bool :=
  if mkdirOk then
    let w := dumpDataset data
    (some (String.mk w.1), w.2)
  else (prior, false)

/-! ### Collaborators not under `src/` and the pipeline driver -/

/-- Modelled from the spec: the `QueryOutcome` produced by
`QueryEngineClient.execute_query` (`query_engine_client.py` is not under
`src/`): a success flag, optional error text, optional status code and an
optional structured payload, which the model abstracts to its rendered
JSON text since the pipeline only ever interpolates it into a diagnostic. -/
structure QueryOutcome where
  success : Bool
  error : Option String
  status_code : Option Int
  data : Option String
deriving DecidableEq

/-- Modelled from the spec: the immutable configuration `ContainerParams`
(`container_params.py` is not under `src/`): mode plus the query-related
fields; a missing field is `none`.  Data-source and output paths are
supplied separately to the run model. -/
structure ContainerParams where
  dev_mode : Bool
  query : Option String
  query_signature : Option String
  compute_job_id : Option String
  data_refiner_id : Option String
  query_params : Option String
deriving DecidableEq

/-- Modelled from the spec: the raw environment a run starts from, with the
same fields the configuration carries (`ContainerParams.from_env` parses
them; the parsing itself is pass-through for the fields the core reads). -/
structure EnvConfig where
  dev_mode : Bool
  query : Option String
  query_signature : Option String
  compute_job_id : Option String
  data_refiner_id : Option String
  query_params : Option String
deriving DecidableEq

/-- A field is present and non-empty. -/
def present (o : Option String) : Bool :=
  match o with
  | some s => !s.isEmpty
  | none => false

/-- All query-related fields are present and non-empty. -/
def queryFieldsOk (q qs cj dr qp : Option String) : Bool :=
  present q && present qs && present cj && present dr && present qp

/-- Modelled from the spec: `ContainerParams.from_env`
(`container_params.py` is not under `src/`).  Per §2 the configuration
"validates itself and fails fast on malformed input", and per §3 "in
production mode all query-related fields must be present and non-empty;
violated ⇒ the configuration is invalid before any I/O is attempted", so
in production mode a missing or empty query-related field raises
`ContainerParamError`. -/
def from_env (env : EnvConfig) : Except String ContainerParams :=
  if !env.dev_mode &&
      !queryFieldsOk env.query env.query_signature env.compute_job_id
        env.data_refiner_id env.query_params then
    .error "ContainerParamError"
  else
    .ok ⟨env.dev_mode, env.query, env.query_signature, env.compute_job_id,
      env.data_refiner_id, env.query_params⟩

/-- Modelled from the spec: `ContainerParams.validate_production_mode`
(`container_params.py` is not under `src/`), the check `execute_query`
performs first: per §4.1 the config "must pass production-mode validation
(all query fields present); if validation fails, returns false without
contacting the QueryEngine". -/
def validate_production_mode (p : ContainerParams) : Bool :=
  queryFieldsOk p.query p.query_signature p.compute_job_id
    p.data_refiner_id p.query_params

/-- Python's f-string rendering of an optional value (`None` prints as
`"None"`). -/
def optStr (o : Option String) : String :=
  match o with
  | some s => s
  | none => "None"

/-- The diagnostic `execute_query` composes when the outcome's success
flag is false: the error text, the status code when truthy (present and
nonzero), and the response payload when truthy. -/
def queryErrorMsg (o : QueryOutcome) : String :=
  let m := "Error executing query: " ++ optStr o.error
  let m :=
    match o.status_code with
    | some c => if c ≠ 0 then m ++ " (Status code: " ++ intDec c ++ ")" else m
    | none => m
  match o.data with
  | some d => m ++ "\nResponse data: " ++ d
  | none => m

/-- What a call to `execute_query` did: its boolean return value, whether
the QueryEngine was contacted, and the diagnostics it printed. -/
structure ExecResult where
  ok : Bool
  engineCalled : Bool
  diagnostics : List String
deriving DecidableEq

/-- `execute_query(params)`: returns false without contacting the engine
if production-mode validation fails; otherwise performs the single
blocking call (whose outcome the model receives as `outcome`) and maps
the outcome's success flag to the boolean result, printing a diagnostic
on failure.  It never raises: failure is signalled purely through the
returned boolean. -/
def execute_query (params : ContainerParams) (outcome : QueryOutcome) : ExecResult :=
  if !validate_production_mode params then ⟨false, false, []⟩
  else if outcome.success then ⟨true, true, []⟩
  else ⟨false, true, [queryErrorMsg outcome]⟩

/-- `process_results(params)` with the active strategy
(`get_submission_chats`): save the extracted chats, or an empty stats
object when nothing was found; any extraction or save error re-raises.
Returns the artifact file state afterwards and whether the call returned
normally. -/
def process_results (db : Option (List Row)) (mkdirOk : Bool) (prior : Option String) :
    Option String × Bool :=
  match get_submission_chats db with
  | .error _ => (prior, false)
  | .ok chats =>
    if chats.isEmpty then save_stats_to_json [] mkdirOk prior
    else save_stats_to_json chats mkdirOk prior

/-- The observable outcome of one worker invocation. -/
structure RunResult where
  exitCode : Nat
  engineCalled : Bool
  extractionRan : Bool
  artifact : Option String
  diagnostics : List String
deriving DecidableEq

/-- The tail of `main` once parameters are loaded and any query step
succeeded: run `process_results`; a raise is caught by the top-level
handler and mapped to exit code 3, otherwise the process exits 0. -/
def runExtraction (called : Bool) (db : Option (List Row)) (mkdirOk : Bool)
    (prior : Option String) (msgs : List String) : RunResult :=
  let pr := process_results db mkdirOk prior
  if pr.2 then ⟨0, called, true, pr.1, msgs⟩
  else ⟨3, called, true, pr.1, msgs⟩

/-- `main()`: load parameters (`ContainerParamError` ⇒ exit 1); in
development mode skip the query step, in production mode run
`execute_query` (false ⇒ exit 2, extraction never runs); then process
results (a raise ⇒ exit 3).  `db` is the `results` table (`none` = data
access failure), `mkdirOk` whether the output directory can be created,
`prior` the artifact file content before the run. -/
def runMain (env : EnvConfig) (outcome : QueryOutcome) (db : Option (List Row))
    (mkdirOk : Bool) (prior : Option String) : RunResult :=
  match from_env env with
  | .error _ => ⟨1, false, false, prior, ["Error in container parameters"]⟩
  | .ok params =>
    if params.dev_mode then
      runExtraction false db mkdirOk prior []
    else
      let er := execute_query params outcome
      if er.ok then runExtraction er.engineCalled db mkdirOk prior er.diagnostics
      else ⟨2, er.engineCalled, false, prior, er.diagnostics⟩

/-! ### A JSON reader for the artifact schema

The artifact is always an object of objects of scalars, so the reader is
layered rather than recursive: scalar, inner object, outer object.  String
literals support the full escape grammar the writer uses (including
`\uXXXX` and surrogate pairs). -/

/-- JSON insignificant whitespace. -/
def isWsChar (c : Char) : Bool :=
  c.toNat = 32 || c.toNat = 10 || c.toNat = 9 || c.toNat = 13

/-- Drop leading insignificant whitespace. -/
def skipWs (cs : List Char) : List Char :=
  match cs with
  | [] => []
  | c :: rest => if isWsChar c then skipWs rest else c :: rest

/-- The value of one hexadecimal digit character. -/
def hexVal (c : Char) : Option Nat :=
  if 48 ≤ c.toNat ∧ c.toNat ≤ 57 then some (c.toNat - 48)
  else if 97 ≤ c.toNat ∧ c.toNat ≤ 102 then some (c.toNat - 87)
  else if 65 ≤ c.toNat ∧ c.toNat ≤ 70 then some (c.toNat - 55)
  else none

/-- Read exactly four hex digits. -/
def read4Hex (cs : List Char) : Option (Nat × List Char) :=
  match cs with
  | a :: b :: c :: d :: rest =>
    match hexVal a, hexVal b, hexVal c, hexVal d with
    | some va, some vb, some vc, some vd =>
      some (((va * 16 + vb) * 16 + vc) * 16 + vd, rest)
    | _, _, _, _ => none
  | _ => none

/-- Prepend a decoded character to a string-body result. -/
def pushChar (c : Char) (r : Option (List Char × List Char)) :
    Option (List Char × List Char) :=
  match r with
  | some p => some (c :: p.1, p.2)
  | none => none

/-- Read a string body up to the closing quote, decoding escapes; a
`\uXXXX` high surrogate must be followed by an escaped low surrogate, and
the pair is recombined into one character.  `fuel` bounds the number of
decoded characters; input length plus one always suffices. -/
def readStrBody (fuel : Nat) (cs : List Char) : Option (List Char × List Char) :=
  match fuel, cs with
  | 0, _ => none
  | _ + 1, [] => none
  | fuel + 1, c :: cs =>
    if c = '"' then some ([], cs)
    else if c = '\\' then
      match cs with
      | [] => none
      | e :: cs2 =>
        if e = '"' then pushChar '"' (readStrBody fuel cs2)
        else if e = '\\' then pushChar '\\' (readStrBody fuel cs2)
        else if e = '/' then pushChar '/' (readStrBody fuel cs2)
        else if e = 'b' then pushChar (Char.ofNat 8) (readStrBody fuel cs2)
        else if e = 'f' then pushChar (Char.ofNat 12) (readStrBody fuel cs2)
        else if e = 'n' then pushChar (Char.ofNat 10) (readStrBody fuel cs2)
        else if e = 'r' then pushChar (Char.ofNat 13) (readStrBody fuel cs2)
        else if e = 't' then pushChar (Char.ofNat 9) (readStrBody fuel cs2)
        else if e = 'u' then
          match read4Hex cs2 with
          | none => none
          | some (v, cs3) =>
            if 55296 ≤ v ∧ v < 56320 then
              match cs3 with
              | b1 :: u1 :: cs4 =>
                if b1 = '\\' ∧ u1 = 'u' then
                  match read4Hex cs4 with
                  | none => none
                  | some (w, cs5) =>
                    if 56320 ≤ w ∧ w < 57344 then
                      pushChar (Char.ofNat (65536 + (v - 55296) * 1024 + (w - 56320)))
                        (readStrBody fuel cs5)
                    else none
                else none
              | _ => none
            else if 56320 ≤ v ∧ v < 57344 then none
            else pushChar (Char.ofNat v) (readStrBody fuel cs3)
        else none
    else if c.toNat < 32 then none
    else pushChar c (readStrBody fuel cs)

/-- Read a string literal (opening quote, body, closing quote). -/
def readStringLit (cs : List Char) : Option (String × List Char) :=
  match cs with
  | c :: rest =>
    if c = '"' then
      match readStrBody (rest.length + 1) rest with
      | some (body, r) => some (String.mk body, r)
      | none => none
    else none
  | [] => none

/-- A decimal digit character. -/
def isDigitChar (c : Char) : Bool :=
  48 ≤ c.toNat && c.toNat ≤ 57

/-- Consume a run of digits, accumulating their value. -/
def readDigits (acc : Nat) (cs : List Char) : Nat × List Char :=
  match cs with
  | [] => (acc, [])
  | c :: rest =>
    if isDigitChar c then readDigits (acc * 10 + (c.toNat - 48)) rest
    else (acc, c :: rest)

/-- Read a natural number (at least one digit). -/
def readNat (cs : List Char) : Option (Nat × List Char) :=
  match cs with
  | c :: rest =>
    if isDigitChar c then some (readDigits (c.toNat - 48) rest) else none
  | [] => none

/-- Read a scalar value: `null`, an integer, or a string. -/
def readScalar (cs : List Char) : Option (JValue × List Char) :=
  match cs with
  | [] => none
  | c :: rest =>
    if c = 'n' then
      match rest with
      | 'u' :: 'l' :: 'l' :: r => some (.null, r)
      | _ => none
    else if c = '-' then
      match readNat rest with
      | some (n, r) => some (.int (-(n : Int)), r)
      | none => none
    else if c = '"' then
      match readStrBody (rest.length + 1) rest with
      | some (body, r) => some (.str (String.mk body), r)
      | none => none
    else
      match readNat (c :: rest) with
      | some (n, r) => some (.int (n : Int), r)
      | none => none

/-- Read the members of a non-empty inner object, up to and including its
closing brace.  `fuel` bounds the member count; input length plus one
always suffices. -/
def readInnerMembers (fuel : Nat) (cs : List Char) :
    Option (List (String × JValue) × List Char) :=
  match fuel with
  | 0 => none
  | fuel + 1 =>
    match readStringLit (skipWs cs) with
    | none => none
    | some (k, r1) =>
      match skipWs r1 with
      | ':' :: r2 =>
        match readScalar (skipWs r2) with
        | none => none
        | some (v, r3) =>
          match skipWs r3 with
          | ',' :: r4 =>
            match readInnerMembers fuel r4 with
            | some (ms, r5) => some ((k, v) :: ms, r5)
            | none => none
          | '}' :: r4 => some ([(k, v)], r4)
          | _ => none
      | _ => none

/-- Read an inner object (a serialized row). -/
def readInnerObj (cs : List Char) : Option (List (String × JValue) × List Char) :=
  match skipWs cs with
  | [] => none
  | c :: r1 =>
    if c = '{' then
      match skipWs r1 with
      | [] => none
      | c2 :: r2 =>
        if c2 = '}' then some ([], r2) else readInnerMembers (r1.length + 1) r1
    else none

/-- Read the members of the non-empty top-level object, up to and
including its closing brace. -/
def readOuterMembers (fuel : Nat) (cs : List Char) :
    Option (List (String × List (String × JValue)) × List Char) :=
  match fuel with
  | 0 => none
  | fuel + 1 =>
    match readStringLit (skipWs cs) with
    | none => none
    | some (k, r1) =>
      match skipWs r1 with
      | ':' :: r2 =>
        match readInnerObj r2 with
        | none => none
        | some (row, r3) =>
          match skipWs r3 with
          | ',' :: r4 =>
            match readOuterMembers fuel r4 with
            | some (ms, r5) => some ((k, row) :: ms, r5)
            | none => none
          | '}' :: r4 => some ([(k, row)], r4)
          | _ => none
      | _ => none

/-- Read the top-level object. -/
def readTop (cs : List Char) : Option (List (String × List (String × JValue)) × List Char) :=
  match skipWs cs with
  | [] => none
  | c :: r1 =>
    if c = '{' then
      match skipWs r1 with
      | [] => none
      | c2 :: r2 =>
        if c2 = '}' then some ([], r2) else readOuterMembers (r1.length + 1) r1
    else none

/-- Parse a whole artifact file: the top-level object followed only by
whitespace. -/
def parseArtifact (s : String) : Option (List (String × List (String × JValue))) :=
  match readTop s.data with
  | some (d, rest) => if skipWs rest = [] then some d else none
  | none => none

/-- The in-memory dataset with its keys stringified, the structure the
artifact denotes. -/
def stringified (d : Dataset) : List (String × List (String × JValue)) :=
  d.map (fun p => ((stringifyKey p.1).getD "", p.2))

/-- `needle` is a prefix of `hay`. -/
def headMatches (hay needle : List Char) : Bool :=
  match hay, needle with
  | _, [] => true
  | [], _ :: _ => false
  | c :: cs, d :: ds => if c = d then headMatches cs ds else false

/-- `needle` occurs contiguously somewhere in `hay`. -/
def containsSub (hay needle : List Char) : Bool :=
  match hay with
  | [] => needle.isEmpty
  | _ :: rest => headMatches hay needle || containsSub rest needle

/-- Substring occurrence on strings, for diagnostic-content statements. -/
def strContains (hay needle : String) : Bool :=
  containsSub hay.data needle.data

/-! ## Groundwork: decimal rendering round-trips through the reader -/

/-- No leading digit: the reader's digit run stops here. -/
def noDigitHead (cs : List Char) : Bool :=
  match cs with
  | [] => true
  | c :: _ => !isDigitChar c

theorem digitChar_spec (d : Nat) (h : d < 10) :
    (digitChar d).toNat = 48 + d ∧ isDigitChar (digitChar d) = true := by
  interval_cases d <;> exact ⟨by decide, by decide⟩

theorem natDecChars_ne_nil (n : Nat) : natDecChars n ≠ [] := by
  rw [natDecChars]
  split
  · simp
  · simp

/-- The recursion measure of `natDecChars`. -/
theorem natDec_div_lt {n : Nat} (h : ¬n < 10) : n / 10 < n :=
  Nat.div_lt_self (by omega) (by omega)

theorem natDecChars_digits (n : Nat) : ∀ c ∈ natDecChars n, isDigitChar c = true := by
  induction n using Nat.strong_induction_on with
  | _ n ih =>
    intro c hc
    rw [natDecChars] at hc
    by_cases h10 : n < 10
    · rw [dif_pos h10, List.mem_singleton] at hc
      subst hc
      exact (digitChar_spec n h10).2
    · rw [dif_neg h10, List.mem_append] at hc
      rcases hc with hc | hc
      · exact ih (n / 10) (natDec_div_lt h10) c hc
      · rw [List.mem_singleton] at hc
        subst hc
        exact (digitChar_spec (n % 10) (Nat.mod_lt _ (by omega))).2

theorem readDigits_run (ds : List Char) (hds : ∀ c ∈ ds, isDigitChar c = true)
    (rest : List Char) (hrest : noDigitHead rest = true) (acc : Nat) :
    readDigits acc (ds ++ rest) =
      (ds.foldl (fun a c => a * 10 + (c.toNat - 48)) acc, rest) := by
  induction ds generalizing acc with
  | nil =>
    cases rest with
    | nil => simp [readDigits]
    | cons c t =>
      simp only [noDigitHead, Bool.not_eq_true'] at hrest
      simp [readDigits, hrest]
  | cons c t ih =>
    have hc : isDigitChar c = true := hds c (by simp)
    simp only [List.cons_append, readDigits, hc, if_pos]
    rw [List.append_eq, ih (fun x hx => hds x (by simp [hx]))]
    simp

theorem foldl_natDecChars (n : Nat) :
    (natDecChars n).foldl (fun a c => a * 10 + (c.toNat - 48)) 0 = n := by
  induction n using Nat.strong_induction_on with
  | _ n ih =>
    rw [natDecChars]
    by_cases h10 : n < 10
    · rw [dif_pos h10]
      simp only [List.foldl_cons, List.foldl_nil]
      rw [(digitChar_spec n h10).1]
      omega
    · rw [dif_neg h10, List.foldl_append, ih (n / 10) (natDec_div_lt h10)]
      simp only [List.foldl_cons, List.foldl_nil]
      rw [(digitChar_spec (n % 10) (Nat.mod_lt _ (by omega))).1]
      omega

theorem readNat_natDec (n : Nat) (rest : List Char) (hrest : noDigitHead rest = true) :
    readNat (natDecChars n ++ rest) = some (n, rest) := by
  have hdigits := natDecChars_digits n
  have hfold := foldl_natDecChars n
  cases hnd : natDecChars n with
  | nil => exact absurd hnd (natDecChars_ne_nil n)
  | cons c t =>
    have hc : isDigitChar c = true := hdigits c (by rw [hnd]; simp)
    have ht : ∀ x ∈ t, isDigitChar x = true := fun x hx => hdigits x (by rw [hnd]; simp [hx])
    simp only [List.cons_append, readNat, hc, if_pos]
    rw [readDigits_run t ht rest hrest]
    rw [hnd] at hfold
    simp only [List.foldl_cons] at hfold
    rw [Nat.zero_mul, Nat.zero_add] at hfold
    rw [hfold]

/-! ## Groundwork: string escaping round-trips through the reader -/

theorem hexVal_hexDig (d : Nat) (h : d < 16) : hexVal (hexDig d) = some d := by
  interval_cases d <;> decide

theorem read4Hex_hex4 (n : Nat) (h : n < 65536) (rest : List Char) :
    read4Hex (hex4 n ++ rest) = some (n, rest) := by
  have h16 : ∀ k : Nat, k % 16 < 16 := fun k => Nat.mod_lt _ (by omega)
  simp only [hex4, List.cons_append, List.nil_append, read4Hex,
    hexVal_hexDig _ (h16 _)]
  have : ((n / 4096 % 16 * 16 + n / 256 % 16) * 16 + n / 16 % 16) * 16 + n % 16 = n := by
    omega
  rw [this]

/-- Every character's code point is valid: below the surrogate block or
above it and below `0x110000`. -/
theorem char_toNat_valid (c : Char) :
    c.toNat < 55296 ∨ (57343 < c.toNat ∧ c.toNat < 1114112) := by
  have h := c.valid
  rcases h with h | h
  · left
    exact h
  · right
    exact h

theorem readStrBody_esc (c : Char) (k : List Char) (fuel : Nat) :
    readStrBody (fuel + 1) (escChar c ++ k) = pushChar c (readStrBody fuel k) := by
  have hvalid := char_toNat_valid c
  by_cases h1 : c = '"'
  · subst h1
    rw [show escChar '"' = ['\\', '"'] from by decide]
    simp [readStrBody]
  by_cases h2 : c = '\\'
  · subst h2
    rw [show escChar '\\' = ['\\', '\\'] from by decide]
    simp [readStrBody]
  by_cases h3 : c = Char.ofNat 8
  · subst h3
    rw [show escChar (Char.ofNat 8) = ['\\', 'b'] from by decide]
    simp [readStrBody]
  by_cases h4 : c = Char.ofNat 9
  · subst h4
    rw [show escChar (Char.ofNat 9) = ['\\', 't'] from by decide]
    simp [readStrBody]
  by_cases h5 : c = Char.ofNat 10
  · subst h5
    rw [show escChar (Char.ofNat 10) = ['\\', 'n'] from by decide]
    simp [readStrBody]
  by_cases h6 : c = Char.ofNat 12
  · subst h6
    rw [show escChar (Char.ofNat 12) = ['\\', 'f'] from by decide]
    simp [readStrBody]
  by_cases h7 : c = Char.ofNat 13
  · subst h7
    rw [show escChar (Char.ofNat 13) = ['\\', 'r'] from by decide]
    simp [readStrBody]
  by_cases h8 : c.toNat < 32 ∨ 126 < c.toNat
  · by_cases h9 : c.toNat < 65536
    · -- a BMP code point written as a single \uXXXX escape
      have hesc : escChar c = '\\' :: 'u' :: hex4 c.toNat := by
        rw [escChar, if_neg h1, if_neg h2, if_neg h3, if_neg h4, if_neg h5, if_neg h6,
          if_neg h7, if_pos h8, if_pos h9]
      have hhi : ¬(55296 ≤ c.toNat ∧ c.toNat < 56320) := by omega
      have hlo : ¬(56320 ≤ c.toNat ∧ c.toNat < 57344) := by omega
      rw [hesc]
      simp only [List.cons_append]
      rw [readStrBody.eq_def]
      simp [read4Hex_hex4 c.toNat h9, hhi, hlo, Char.ofNat_toNat]
    · -- an astral code point written as a surrogate pair
      have hesc : escChar c =
          ('\\' :: 'u' :: hex4 (55296 + (c.toNat - 65536) / 1024)) ++
          ('\\' :: 'u' :: hex4 (56320 + (c.toNat - 65536) % 1024)) := by
        rw [escChar, if_neg h1, if_neg h2, if_neg h3, if_neg h4, if_neg h5, if_neg h6,
          if_neg h7, if_pos h8, if_neg h9]
      have hdiv : (c.toNat - 65536) / 1024 < 1024 := by omega
      have hmod : (c.toNat - 65536) % 1024 < 1024 := Nat.mod_lt _ (by omega)
      have hhi_lt : 55296 + (c.toNat - 65536) / 1024 < 65536 := by omega
      have hlo_lt : 56320 + (c.toNat - 65536) % 1024 < 65536 := by omega
      have hrange : 55296 ≤ 55296 + (c.toNat - 65536) / 1024 ∧
          55296 + (c.toNat - 65536) / 1024 < 56320 := by omega
      have hlorange : 56320 ≤ 56320 + (c.toNat - 65536) % 1024 ∧
          56320 + (c.toNat - 65536) % 1024 < 57344 := by omega
      rw [hesc]
      simp only [List.cons_append, List.append_assoc]
      rw [readStrBody.eq_def]
      simp [read4Hex_hex4 _ hhi_lt, read4Hex_hex4 _ hlo_lt, hrange, hlorange]
      have hfin : 65536 + (c.toNat - 65536) / 1024 * 1024 + (c.toNat - 65536) % 1024
          = c.toNat := by omega
      rw [hfin, Char.ofNat_toNat]
  · -- a printable ASCII character other than quote and backslash
    push_neg at h8
    have hesc : escChar c = [c] := by
      rw [escChar, if_neg h1, if_neg h2, if_neg h3, if_neg h4, if_neg h5, if_neg h6,
        if_neg h7, if_neg (by omega)]
    have h32 : ¬c.toNat < 32 := by omega
    rw [hesc]
    simp only [List.cons_append, List.nil_append]
    rw [readStrBody.eq_def]
    simp [h1, h2, h32]

theorem readStrBody_escapeChars (cs : List Char) :
    ∀ (fuel : Nat), cs.length < fuel → ∀ (rest : List Char),
    readStrBody fuel (escapeChars cs ++ '"' :: rest) = some (cs, rest) := by
  induction cs with
  | nil =>
    intro fuel hf rest
    match fuel, hf with
    | f + 1, _ => simp [escapeChars, readStrBody]
  | cons c t ih =>
    intro fuel hf rest
    match fuel, hf with
    | f + 1, hf =>
      have : escapeChars (c :: t) ++ '"' :: rest =
          escChar c ++ (escapeChars t ++ '"' :: rest) := by
        simp [escapeChars]
      rw [this, readStrBody_esc, ih f (by simp at hf; omega) rest]
      rfl

theorem escChar_length_pos (c : Char) : 1 ≤ (escChar c).length := by
  rw [escChar]
  split
  · simp
  split
  · simp
  split
  · simp
  split
  · simp
  split
  · simp
  split
  · simp
  split
  · simp
  split
  · split
    · simp
    · simp
  · simp

theorem escapeChars_length (cs : List Char) :
    cs.length ≤ (escapeChars cs).length := by
  induction cs with
  | nil => simp [escapeChars]
  | cons c t ih =>
    have := escChar_length_pos c
    simp only [escapeChars, List.length_append, List.length_cons]
    omega

theorem readStringLit_strLit (s : String) (rest : List Char) :
    readStringLit (strLit s ++ rest) = some (s, rest) := by
  have hshape : strLit s ++ rest = '"' :: (escapeChars s.data ++ '"' :: rest) := by
    simp [strLit]
  rw [hshape]
  simp only [readStringLit, if_pos rfl]
  rw [readStrBody_escapeChars s.data _ (by
    have := escapeChars_length s.data
    simp only [List.length_append, List.length_cons]
    omega) rest]
  cases s
  rfl

/-! ## Groundwork: scalars and whitespace -/

theorem digit_not_marker {c : Char} (h : isDigitChar c = true) :
    c ≠ 'n' ∧ c ≠ '-' ∧ c ≠ '"' := by
  refine ⟨fun hc => ?_, fun hc => ?_, fun hc => ?_⟩
  · subst hc; exact absurd h (by decide)
  · subst hc; exact absurd h (by decide)
  · subst hc; exact absurd h (by decide)

theorem readScalar_dump (v : JValue) (out : List Char) (hout : dumpScalar v = some out)
    (rest : List Char) (hrest : noDigitHead rest = true) :
    readScalar (out ++ rest) = some (v, rest) := by
  match v with
  | .null =>
    simp only [dumpScalar, Option.some.injEq] at hout
    subst hout
    simp [readScalar]
  | .int i =>
    simp only [dumpScalar, Option.some.injEq] at hout
    subst hout
    by_cases hneg : i < 0
    · have hdata : (intDec i).data = '-' :: natDecChars i.natAbs := by
        simp [intDec, hneg]
      have hia : -((i.natAbs : Nat) : Int) = i := by omega
      rw [hdata]
      simp only [List.cons_append, readScalar]
      simp [readNat_natDec i.natAbs rest hrest, hia]
      rw [abs_of_neg hneg, neg_neg]
    · have hdata : (intDec i).data = natDecChars i.natAbs := by
        simp [intDec, hneg, natDec]
      rw [hdata]
      cases hnd : natDecChars i.natAbs with
      | nil => exact absurd hnd (natDecChars_ne_nil _)
      | cons c t =>
        have hc : isDigitChar c = true :=
          natDecChars_digits i.natAbs c (by rw [hnd]; simp)
        obtain ⟨hn, hm, hq⟩ := digit_not_marker hc
        have hrn := readNat_natDec i.natAbs rest hrest
        rw [hnd] at hrn
        simp only [List.cons_append] at hrn
        simp only [List.cons_append, readScalar]
        rw [if_neg hn, if_neg hm, if_neg hq, hrn]
        simp [show ((i.natAbs : Nat) : Int) = i by omega]
  | .str s =>
    simp only [dumpScalar, Option.some.injEq] at hout
    subst hout
    have hshape : strLit s ++ rest = '"' :: (escapeChars s.data ++ '"' :: rest) := by
      simp [strLit]
    rw [hshape]
    simp only [readScalar]
    rw [readStrBody_escapeChars s.data _ (by
      have := escapeChars_length s.data
      simp only [List.length_append, List.length_cons]
      omega) rest]
    cases s
    simp
  | .blob b => simp [dumpScalar] at hout

theorem skipWs_cons_not {c : Char} (h : isWsChar c = false) (cs : List Char) :
    skipWs (c :: cs) = c :: cs := by
  simp [skipWs, h]

theorem skipWs_ws_append {w : List Char} (h : ∀ c ∈ w, isWsChar c = true)
    (cs : List Char) : skipWs (w ++ cs) = skipWs cs := by
  induction w with
  | nil => simp
  | cons c t ih =>
    have hc := h c (by simp)
    simp only [List.cons_append, skipWs, hc, if_pos]
    exact ih (fun x hx => h x (by simp [hx]))

theorem nlIndent_ws (lvl : Nat) : ∀ c ∈ nlIndent lvl, isWsChar c = true := by
  intro c hc
  simp only [nlIndent, List.mem_cons, List.mem_replicate] at hc
  rcases hc with rfl | ⟨_, rfl⟩
  · decide
  · decide

theorem skipWs_strLit (k : String) (x : List Char) :
    skipWs (strLit k ++ x) = strLit k ++ x := by
  have : strLit k ++ x = '"' :: (escapeChars k.data ++ '"' :: x) := by simp [strLit]
  rw [this, skipWs_cons_not (by decide)]

/-! ## Groundwork: the members layers round-trip -/

theorem dumpScalar_head_not_ws {v : JValue} {out : List Char}
    (h : dumpScalar v = some out) :
    ∃ c t, out = c :: t ∧ isWsChar c = false ∧ isWsChar c ≠ true := by
  match v with
  | .null =>
    simp only [dumpScalar, Option.some.injEq] at h
    exact ⟨'n', _, h.symm, by decide, by decide⟩
  | .int i =>
    simp only [dumpScalar, Option.some.injEq] at h
    by_cases hneg : i < 0
    · have : (intDec i).data = '-' :: natDecChars i.natAbs := by simp [intDec, hneg]
      rw [this] at h
      exact ⟨'-', _, h.symm, by decide, by decide⟩
    · have : (intDec i).data = natDecChars i.natAbs := by simp [intDec, hneg, natDec]
      rw [this] at h
      cases hnd : natDecChars i.natAbs with
      | nil => exact absurd hnd (natDecChars_ne_nil _)
      | cons c t =>
        rw [hnd] at h
        have hc : isDigitChar c = true := natDecChars_digits i.natAbs c (by rw [hnd]; simp)
        have hws : isWsChar c = false := by
          simp only [isDigitChar, Bool.and_eq_true, decide_eq_true_eq] at hc
          simp only [isWsChar, Bool.or_eq_false_iff, decide_eq_false_iff_not]
          omega
        exact ⟨c, t, h.symm, hws, by simp [hws]⟩
  | .str s =>
    simp only [dumpScalar, Option.some.injEq] at h
    rw [strLit] at h
    exact ⟨'"', _, h.symm, by decide, by decide⟩
  | .blob b => simp [dumpScalar] at h

theorem noDigitHead_cons {c : Char} (h : isDigitChar c = false) (x : List Char) :
    noDigitHead (c :: x) = true := by
  simp [noDigitHead, h]

theorem skipWs_scalar {v : JValue} {out : List Char} (h : dumpScalar v = some out)
    (z : List Char) : skipWs (out ++ z) = out ++ z := by
  obtain ⟨c, t, rfl, hws, _⟩ := dumpScalar_head_not_ws h
  simp only [List.cons_append]
  exact skipWs_cons_not hws _

theorem dumpRowEntries_false_shape (lvl : Nat) (l : List (String × JValue)) (hne : l ≠ []) :
    dumpRowEntries lvl false l =
      (',' :: (nlIndent lvl ++ (dumpRowEntries lvl true l).1),
        (dumpRowEntries lvl true l).2) := by
  match l with
  | [] => exact absurd rfl hne
  | (k, v) :: rest =>
    simp only [dumpRowEntries]
    match dumpScalar v with
    | none => simp
    | some vs => simp

theorem dumpRowEntries_ok (lvl : Nat) (l : List (String × JValue))
    (hser : ∀ q ∈ l, (dumpScalar q.2).isSome = true) (first : Bool) :
    (dumpRowEntries lvl first l).2 = true := by
  induction l generalizing first with
  | nil => simp [dumpRowEntries]
  | cons p t ih =>
    obtain ⟨k, v⟩ := p
    have hv : (dumpScalar v).isSome = true := hser (k, v) (by simp)
    obtain ⟨vs, hvs⟩ := Option.isSome_iff_exists.mp hv
    simp only [dumpRowEntries, hvs]
    exact ih (fun q hq => hser q (by simp [hq])) false

theorem dumpRowEntries_head (lvl : Nat) (k : String) (v : JValue)
    (t : List (String × JValue)) :
    ∃ w, (dumpRowEntries lvl true ((k, v) :: t)).1 = '"' :: w := by
  simp only [dumpRowEntries]
  match dumpScalar v with
  | none =>
    exact ⟨escapeChars k.data ++ '"' :: [':', ' '], by simp [strLit]⟩
  | some vs =>
    exact ⟨escapeChars k.data ++ '"' :: ':' :: ' ' ::
      (vs ++ (dumpRowEntries lvl false t).1), by simp [strLit]⟩

theorem dumpRowEntries_length (lvl : Nat) (l : List (String × JValue))
    (hser : ∀ q ∈ l, (dumpScalar q.2).isSome = true) (first : Bool) :
    l.length ≤ (dumpRowEntries lvl first l).1.length := by
  induction l generalizing first with
  | nil => simp [dumpRowEntries]
  | cons p t ih =>
    obtain ⟨k, v⟩ := p
    have hv : (dumpScalar v).isSome = true := hser (k, v) (by simp)
    obtain ⟨vs, hvs⟩ := Option.isSome_iff_exists.mp hv
    have ht := ih (fun q hq => hser q (by simp [hq])) false
    cases first <;>
      (simp only [dumpRowEntries, hvs]
       simp [strLit, List.length_append]
       omega)

theorem skipWs_cons_ws {c : Char} (h : isWsChar c = true) (cs : List Char) :
    skipWs (c :: cs) = skipWs cs := by
  simp [skipWs, h]

theorem noDigitHead_nlIndent (lvl : Nat) (x : List Char) :
    noDigitHead (nlIndent lvl ++ x) = true := by
  simp [nlIndent, noDigitHead, isDigitChar]

theorem readInnerMembers_dump (l : List (String × JValue)) :
    ∀ (hser : ∀ q ∈ l, (dumpScalar q.2).isSome = true) (_hne : l ≠ [])
      (fuel : Nat) (_hf : l.length < fuel) (rest : List Char),
    readInnerMembers fuel
        (nlIndent 2 ++ ((dumpRowEntries 2 true l).1 ++ (nlIndent 1 ++ ('}' :: rest))))
      = some (l, rest) := by
  induction l with
  | nil => intro _ hne; exact absurd rfl hne
  | cons p t ih =>
    intro hser hne fuel hf rest
    obtain ⟨k, v⟩ := p
    have hv : (dumpScalar v).isSome = true := hser (k, v) (by simp)
    obtain ⟨vs, hvs⟩ := Option.isSome_iff_exists.mp hv
    match fuel, hf with
    | f + 1, hf =>
      simp only [readInnerMembers]
      rw [skipWs_ws_append (nlIndent_ws 2)]
      match t with
      | [] =>
        -- single member: key, ": ", scalar, then the closing brace
        have hstream : (dumpRowEntries 2 true [(k, v)]).1 ++ (nlIndent 1 ++ ('}' :: rest)) =
            strLit k ++ (':' :: ' ' :: (vs ++ (nlIndent 1 ++ ('}' :: rest)))) := by
          simp only [dumpRowEntries, hvs]
          simp
        rw [hstream, skipWs_strLit, readStringLit_strLit]
        simp only [skipWs_cons_not (show isWsChar ':' = false from by decide),
          skipWs_cons_ws (show isWsChar ' ' = true from by decide),
          skipWs_scalar hvs,
          readScalar_dump v vs hvs (nlIndent 1 ++ ('}' :: rest))
            (noDigitHead_nlIndent 1 ('}' :: rest)),
          skipWs_ws_append (nlIndent_ws 1),
          skipWs_cons_not (show isWsChar '}' = false from by decide)]
      | q :: t2 =>
        -- at least two members: after the scalar comes "," and the next member
        have hstream : (dumpRowEntries 2 true ((k, v) :: q :: t2)).1 ++
              (nlIndent 1 ++ ('}' :: rest)) =
            strLit k ++ (':' :: ' ' :: (vs ++ (',' ::
              (nlIndent 2 ++ ((dumpRowEntries 2 true (q :: t2)).1 ++
                (nlIndent 1 ++ ('}' :: rest))))))) := by
          conv =>
            lhs
            rw [show (dumpRowEntries 2 true ((k, v) :: q :: t2)).1 =
              strLit k ++ (':' :: ' ' :: vs) ++ (dumpRowEntries 2 false (q :: t2)).1 from by
                simp [dumpRowEntries, hvs]]
          rw [dumpRowEntries_false_shape 2 (q :: t2) (by simp)]
          simp
        rw [hstream, skipWs_strLit, readStringLit_strLit]
        simp only [skipWs_cons_not (show isWsChar ':' = false from by decide),
          skipWs_cons_ws (show isWsChar ' ' = true from by decide),
          skipWs_scalar hvs,
          readScalar_dump v vs hvs
            (',' :: (nlIndent 2 ++ ((dumpRowEntries 2 true (q :: t2)).1 ++
              (nlIndent 1 ++ ('}' :: rest)))))
            (noDigitHead_cons (by decide) _),
          skipWs_cons_not (show isWsChar ',' = false from by decide)]
        rw [ih (fun x hx => hser x (by simp [hx])) (by simp) f (by simp at hf ⊢; omega) rest]

theorem readInnerObj_dumpRow (r : Row)
    (hser : ∀ q ∈ r, (dumpScalar q.2).isSome = true)
    (w : List Char) (hw : ∀ c ∈ w, isWsChar c = true) (z : List Char) :
    readInnerObj (w ++ ((dumpRow 1 r).1 ++ z)) = some (r, z) := by
  match r with
  | [] =>
    simp only [dumpRow, List.cons_append, List.nil_append]
    rw [readInnerObj]
    simp only [skipWs_ws_append hw,
      skipWs_cons_not (show isWsChar '{' = false from by decide),
      skipWs_cons_not (show isWsChar '}' = false from by decide)]
    simp
  | p :: t =>
    obtain ⟨k, v⟩ := p
    have hok : (dumpRowEntries 2 true ((k, v) :: t)).2 = true :=
      dumpRowEntries_ok 2 ((k, v) :: t) hser true
    have hshape : (dumpRow 1 ((k, v) :: t)).1 ++ z =
        '{' :: (nlIndent 2 ++ ((dumpRowEntries 2 true ((k, v) :: t)).1 ++
          (nlIndent 1 ++ ('}' :: z)))) := by
      simp only [dumpRow, hok, if_pos]
      simp
    obtain ⟨hw2, hhead⟩ := dumpRowEntries_head 2 k v t
    have hbound : ((k, v) :: t).length <
        (nlIndent 2 ++ ((dumpRowEntries 2 true ((k, v) :: t)).1 ++
          (nlIndent 1 ++ ('}' :: z)))).length + 1 := by
      have hlen := dumpRowEntries_length 2 ((k, v) :: t) hser true
      simp only [List.length_append, List.length_cons] at hlen ⊢
      omega
    have hmem := readInnerMembers_dump ((k, v) :: t) hser (by simp) _ hbound z
    rw [hhead] at hmem
    rw [hshape, readInnerObj]
    simp only [skipWs_ws_append hw,
      skipWs_cons_not (show isWsChar '{' = false from by decide),
      skipWs_ws_append (nlIndent_ws 2), hhead, List.cons_append,
      skipWs_cons_not (show isWsChar '"' = false from by decide),
      if_true, if_false]
    simp only [List.cons_append] at hmem
    simpa only [List.cons_append] using hmem

theorem dumpDatasetEntries_false_shape (d : Dataset) (hne : d ≠ [])
    (hkeys : ∀ p ∈ d, (stringifyKey p.1).isSome = true) :
    dumpDatasetEntries false d =
      (',' :: (nlIndent 1 ++ (dumpDatasetEntries true d).1),
        (dumpDatasetEntries true d).2) := by
  match d with
  | [] => exact absurd rfl hne
  | (k, row) :: rest =>
    have hk : (stringifyKey k).isSome = true := hkeys (k, row) (by simp)
    obtain ⟨ks, hks⟩ := Option.isSome_iff_exists.mp hk
    simp only [dumpDatasetEntries, hks]
    match hrok : (dumpRow 1 row).2 with
    | true => simp [hrok]
    | false => simp [hrok]

theorem dumpDatasetEntries_ok (d : Dataset)
    (hkeys : ∀ p ∈ d, (stringifyKey p.1).isSome = true)
    (hser : ∀ p ∈ d, ∀ q ∈ p.2, (dumpScalar q.2).isSome = true) (first : Bool) :
    (dumpDatasetEntries first d).2 = true := by
  induction d generalizing first with
  | nil => simp [dumpDatasetEntries]
  | cons p t ih =>
    obtain ⟨k, row⟩ := p
    have hk : (stringifyKey k).isSome = true := hkeys (k, row) (by simp)
    obtain ⟨ks, hks⟩ := Option.isSome_iff_exists.mp hk
    have hrok : (dumpRow 1 row).2 = true := by
      match row with
      | [] => simp [dumpRow]
      | q :: t2 =>
        simp only [dumpRow]
        exact dumpRowEntries_ok 2 (q :: t2) (hser (k, q :: t2) (by simp)) true
    simp only [dumpDatasetEntries, hks, hrok, if_pos]
    exact ih (fun x hx => hkeys x (by simp [hx]))
      (fun x hx => hser x (by simp [hx])) false

theorem dumpDatasetEntries_head (k : JValue) (row : Row) (t : Dataset)
    (ks : String) (hks : stringifyKey k = some ks) :
    ∃ w, (dumpDatasetEntries true ((k, row) :: t)).1 = '"' :: w := by
  simp only [dumpDatasetEntries, hks]
  match hrok : (dumpRow 1 row).2 with
  | true =>
    exact ⟨escapeChars ks.data ++ '"' :: ':' :: ' ' ::
      ((dumpRow 1 row).1 ++ (dumpDatasetEntries false t).1), by simp [strLit]⟩
  | false =>
    exact ⟨escapeChars ks.data ++ '"' :: ':' :: ' ' :: (dumpRow 1 row).1,
      by simp [strLit]⟩

theorem dumpDatasetEntries_length (d : Dataset)
    (hkeys : ∀ p ∈ d, (stringifyKey p.1).isSome = true)
    (hser : ∀ p ∈ d, ∀ q ∈ p.2, (dumpScalar q.2).isSome = true) (first : Bool) :
    d.length ≤ (dumpDatasetEntries first d).1.length := by
  induction d generalizing first with
  | nil => simp [dumpDatasetEntries]
  | cons p t ih =>
    obtain ⟨k, row⟩ := p
    have hk : (stringifyKey k).isSome = true := hkeys (k, row) (by simp)
    obtain ⟨ks, hks⟩ := Option.isSome_iff_exists.mp hk
    have ht := ih (fun x hx => hkeys x (by simp [hx]))
      (fun x hx => hser x (by simp [hx])) false
    have hrok : (dumpRow 1 row).2 = true := by
      match row with
      | [] => simp [dumpRow]
      | q :: t2 =>
        simp only [dumpRow]
        exact dumpRowEntries_ok 2 (q :: t2) (hser (k, q :: t2) (by simp)) true
    cases first <;>
      (simp only [dumpDatasetEntries, hks, hrok, if_pos]
       simp [strLit, List.length_append]
       omega)

theorem readOuterMembers_dump (d : Dataset) :
    ∀ (hkeys : ∀ p ∈ d, (stringifyKey p.1).isSome = true)
      (hser : ∀ p ∈ d, ∀ q ∈ p.2, (dumpScalar q.2).isSome = true)
      (_hne : d ≠ []) (fuel : Nat) (_hf : d.length < fuel) (rest : List Char),
    readOuterMembers fuel
        (nlIndent 1 ++ ((dumpDatasetEntries true d).1 ++ ('\n' :: ('}' :: rest))))
      = some (stringified d, rest) := by
  induction d with
  | nil => intro _ _ hne; exact absurd rfl hne
  | cons p t ih =>
    intro hkeys hser hne fuel hf rest
    obtain ⟨k, row⟩ := p
    have hk : (stringifyKey k).isSome = true := hkeys (k, row) (by simp)
    obtain ⟨ks, hks⟩ := Option.isSome_iff_exists.mp hk
    have hserrow : ∀ q ∈ row, (dumpScalar q.2).isSome = true :=
      hser (k, row) (by simp)
    have hrok : (dumpRow 1 row).2 = true := by
      match row with
      | [] => simp [dumpRow]
      | q :: t2 =>
        simp only [dumpRow]
        exact dumpRowEntries_ok 2 (q :: t2) hserrow true
    have hobj := readInnerObj_dumpRow row hserrow [' ']
      (by intro c hc; simp at hc; subst hc; decide)
    simp only [List.cons_append, List.nil_append] at hobj
    match fuel, hf with
    | f + 1, hf =>
      simp only [readOuterMembers]
      rw [skipWs_ws_append (nlIndent_ws 1)]
      match t with
      | [] =>
        -- single member: key, ": ", inner object, then "\n}"
        have hstream : (dumpDatasetEntries true [(k, row)]).1 ++ ('\n' :: ('}' :: rest)) =
            strLit ks ++ (':' :: ' ' :: ((dumpRow 1 row).1 ++ ('\n' :: ('}' :: rest)))) := by
          simp only [dumpDatasetEntries, hks, hrok, if_pos]
          simp
        rw [hstream, skipWs_strLit, readStringLit_strLit]
        simp only [skipWs_cons_not (show isWsChar ':' = false from by decide),
          hobj ('\n' :: ('}' :: rest)),
          skipWs_cons_ws (show isWsChar '\n' = true from by decide),
          skipWs_cons_not (show isWsChar '}' = false from by decide)]
        simp [stringified, hks]
      | q :: t2 =>
        -- at least two members: after the inner object comes "," and the rest
        have hstream : (dumpDatasetEntries true ((k, row) :: q :: t2)).1 ++
              ('\n' :: ('}' :: rest)) =
            strLit ks ++ (':' :: ' ' :: ((dumpRow 1 row).1 ++ (',' ::
              (nlIndent 1 ++ ((dumpDatasetEntries true (q :: t2)).1 ++
                ('\n' :: ('}' :: rest))))))) := by
          conv =>
            lhs
            rw [show (dumpDatasetEntries true ((k, row) :: q :: t2)).1 =
              strLit ks ++ (':' :: ' ' :: (dumpRow 1 row).1) ++
                (dumpDatasetEntries false (q :: t2)).1 from by
                simp [dumpDatasetEntries, hks, hrok]]
          rw [dumpDatasetEntries_false_shape (q :: t2) (by simp)
            (fun x hx => hkeys x (by simp [hx]))]
          simp
        rw [hstream, skipWs_strLit, readStringLit_strLit]
        simp only [skipWs_cons_not (show isWsChar ':' = false from by decide),
          hobj (',' :: (nlIndent 1 ++ ((dumpDatasetEntries true (q :: t2)).1 ++
            ('\n' :: ('}' :: rest))))),
          skipWs_cons_not (show isWsChar ',' = false from by decide)]
        rw [ih (fun x hx => hkeys x (by simp [hx])) (fun x hx => hser x (by simp [hx]))
          (by simp) f (by simp at hf ⊢; omega) rest]
        simp [stringified, hks]

theorem parseArtifact_dumps (d : Dataset)
    (hkeys : ∀ p ∈ d, (stringifyKey p.1).isSome = true)
    (hser : ∀ p ∈ d, ∀ q ∈ p.2, (dumpScalar q.2).isSome = true) :
    ∃ s, dumps d = some s ∧ parseArtifact s = some (stringified d) := by
  match d with
  | [] => exact ⟨String.mk ['{', '}'], rfl, by decide⟩
  | p :: t =>
    obtain ⟨k, row⟩ := p
    have hok : (dumpDatasetEntries true ((k, row) :: t)).2 = true :=
      dumpDatasetEntries_ok ((k, row) :: t) hkeys hser true
    have hk : (stringifyKey k).isSome = true := hkeys (k, row) (by simp)
    obtain ⟨ks, hks⟩ := Option.isSome_iff_exists.mp hk
    obtain ⟨w2, hhead⟩ := dumpDatasetEntries_head k row t ks hks
    have hfuel : ((k, row) :: t).length <
        (nlIndent 1 ++ '"' :: (w2 ++ ['\n', '}'])).length + 1 := by
      have hlen := dumpDatasetEntries_length ((k, row) :: t) hkeys hser true
      rw [hhead] at hlen
      simp only [List.length_cons, List.length_append] at hlen ⊢
      omega
    have hmem2 := readOuterMembers_dump ((k, row) :: t) hkeys hser (by simp)
      ((nlIndent 1 ++ '"' :: (w2 ++ ['\n', '}'])).length + 1) hfuel []
    rw [hhead] at hmem2
    simp only [List.cons_append] at hmem2
    have hdump : dumps ((k, row) :: t) = some (String.mk
        ('{' :: (nlIndent 1 ++ ((dumpDatasetEntries true ((k, row) :: t)).1 ++
          ('\n' :: ('}' :: ([] : List Char))))))) := by
      simp only [dumps, dumpDataset, hok, if_pos]
      simp
    refine ⟨_, hdump, ?_⟩
    simp only [parseArtifact, readTop, String.mk]
    rw [show skipWs ('{' :: (nlIndent 1 ++ ((dumpDatasetEntries true ((k, row) :: t)).1 ++
        ('\n' :: ('}' :: ([] : List Char)))))) =
      '{' :: (nlIndent 1 ++ ((dumpDatasetEntries true ((k, row) :: t)).1 ++
        ('\n' :: ('}' :: ([] : List Char))))) from skipWs_cons_not (by decide) _]
    simp only [skipWs_ws_append (nlIndent_ws 1), hhead, List.cons_append,
      skipWs_cons_not (show isWsChar '"' = false from by decide),
      if_true, if_false]
    rw [if_neg (show ¬('"' = '}') from by decide), hmem2]
    simp [skipWs]

/-! ## Groundwork: dict building, last-write-wins, and the strategy loops -/

theorem dictInsert_fresh {k : JValue} {m : Dataset} (h : dictMem k m = false)
    (v : Row) : dictInsert m k v = m ++ [(k, v)] := by
  simp [dictInsert, h]

theorem dictMem_append (k : JValue) (a b : Dataset) :
    dictMem k (a ++ b) = (dictMem k a || dictMem k b) := by
  induction a with
  | nil => simp [dictMem]
  | cons p t ih => simp [dictMem, ih, Bool.or_assoc]

theorem dictFind_insert_self (k : JValue) (m : Dataset) (v : Row) :
    dictFind k (dictInsert m k v) = some v := by
  by_cases hmem : dictMem k m = true
  · simp only [dictInsert, hmem, if_pos]
    induction m with
    | nil => simp [dictMem] at hmem
    | cons p t ih =>
      by_cases hp : p.1 = k
      · simp [dictFind, hp]
      · simp only [dictMem, hp, decide_eq_true_eq, Bool.false_or] at hmem
        simp only [List.map_cons, if_neg hp, dictFind]
        exact ih (by simpa [dictMem] using hmem)
  · rw [dictInsert_fresh (by simpa using hmem)]
    induction m with
    | nil => simp [dictFind]
    | cons p t ih =>
      have hp : ¬p.1 = k := by
        intro hc
        simp [dictMem, hc] at hmem
      simp only [List.cons_append, dictFind, if_neg hp]
      exact ih (by
        simp only [dictMem, Bool.or_eq_true, decide_eq_true_eq] at hmem ⊢
        intro hc
        exact hmem (Or.inr hc))

theorem dictMap_id {k2 : JValue} (v : Row) (t : Dataset) (h : dictMem k2 t = false) :
    t.map (fun p => if p.1 = k2 then (p.1, v) else p) = t := by
  induction t with
  | nil => rfl
  | cons q s ih =>
    have hq : ¬q.1 = k2 := by
      intro hc
      simp [dictMem, hc] at h
    simp only [List.map_cons, if_neg hq]
    rw [ih (by
      simp only [dictMem, Bool.or_eq_false_iff, decide_eq_false_iff_not] at h
      exact h.2)]

theorem dictFind_insert_other {k k2 : JValue} (hne : ¬k2 = k) (m : Dataset) (v : Row) :
    dictFind k (dictInsert m k2 v) = dictFind k m := by
  by_cases hmem : dictMem k2 m = true
  · simp only [dictInsert, hmem, if_pos]
    induction m with
    | nil => simp [dictFind]
    | cons p t ih =>
      by_cases hp : p.1 = k2
      · have hpk : ¬p.1 = k := by rw [hp]; exact hne
        simp only [List.map_cons, if_pos hp, dictFind, if_neg hpk]
        by_cases hmt : dictMem k2 t = true
        · exact ih hmt
        · rw [dictMap_id v t (by simpa using hmt)]
      · simp only [List.map_cons, if_neg hp, dictFind]
        by_cases hpk : p.1 = k
        · simp [hpk]
        · rw [if_neg hpk, if_neg hpk]
          simp only [dictMem, hp, decide_eq_true_eq, Bool.false_or] at hmem
          exact ih hmem
  · rw [dictInsert_fresh (by simpa using hmem)]
    induction m with
    | nil => simp [dictFind, hne]
    | cons p t ih =>
      simp only [List.cons_append, dictFind]
      by_cases hpk : p.1 = k
      · simp [hpk]
      · rw [if_neg hpk, if_neg hpk]
        exact ih (by
          simp only [dictMem, Bool.or_eq_true, decide_eq_true_eq] at hmem ⊢
          intro hc
          exact hmem (Or.inr hc))

theorem extractLoop_lastWith (col : String) (rows : List Row) :
    ∀ (acc : Dataset) (_h : ∀ r ∈ rows, (rowGet r col).isSome = true),
    ∃ m, extractLoop col acc rows = .ok m ∧
      ∀ k, dictFind k m = (lastWith col k rows).elim (dictFind k acc) some := by
  induction rows with
  | nil =>
    intro acc h
    exact ⟨acc, rfl, fun k => by simp [lastWith]⟩
  | cons r rs ih =>
    intro acc h
    have hr : (rowGet r col).isSome = true := h r (by simp)
    obtain ⟨kr, hkr⟩ := Option.isSome_iff_exists.mp hr
    obtain ⟨m, hm, hfind⟩ := ih (dictInsert acc kr r) (fun x hx => h x (by simp [hx]))
    refine ⟨m, ?_, ?_⟩
    · simp only [extractLoop, hkr]
      exact hm
    · intro k
      rw [hfind k]
      simp only [lastWith]
      match lastWith col k rs with
      | some x => simp [Option.elim]
      | none =>
        simp only [Option.elim]
        by_cases hkk : rowGet r col = some k
        · have hkrk : kr = k := by
            rw [hkr] at hkk
            exact Option.some.inj hkk
          subst hkrk
          simp [hkk, dictFind_insert_self]
        · have hne : ¬kr = k := by
            intro hc
            subst hc
            exact hkk hkr
          simp [hkk, dictFind_insert_other hne]

theorem selectCols_not_selected (cols : List String) (r : Row) (pr : Row)
    (hsel : selectCols cols r = some pr) (c : String) (hc : ∀ c2 ∈ cols, c2 ≠ c) :
    rowGet pr c = none := by
  induction cols generalizing pr with
  | nil =>
    simp only [selectCols, Option.some.injEq] at hsel
    subst hsel
    rfl
  | cons c2 cs ih =>
    simp only [selectCols] at hsel
    match hv : rowGet r c2, hrest : selectCols cs r with
    | some v, some rest =>
      rw [hv, hrest] at hsel
      simp only [Option.some.injEq] at hsel
      subst hsel
      simp only [rowGet, if_neg (hc c2 (by simp))]
      exact ih rest hrest (fun x hx => hc x (by simp [hx]))
    | some v, none => rw [hv, hrest] at hsel; simp at hsel
    | none, some rest => rw [hv] at hsel; simp at hsel
    | none, none => rw [hv] at hsel; simp at hsel

theorem get_submission_chats_ok_empty (table : List Row) (m : Dataset)
    (h : get_submission_chats (some table) = .ok m) : m = [] ∧ table = [] := by
  match table with
  | [] =>
    simp only [get_submission_chats, projectTable, extractLoop] at h
    simp only [Except.ok.injEq] at h
    exact ⟨h.symm, rfl⟩
  | r :: rs =>
    exfalso
    simp only [get_submission_chats, projectTable] at h
    match hsel : selectCols chatCols r, hrest : projectTable chatCols rs with
    | some pr, some prs =>
      rw [hsel, hrest] at h
      have hnone : rowGet pr "SubmissionChatID" = none :=
        selectCols_not_selected chatCols r pr hsel _ (by
          intro c2 hc2
          simp only [chatCols, List.mem_cons, List.mem_singleton] at hc2
          rcases hc2 with rfl | rfl | rfl | h2
          · decide
          · decide
          · decide
          · simp at h2)
      simp only [extractLoop, hnone] at h
      exact Except.noConfusion h
    | some pr, none => rw [hsel, hrest] at h; simp at h
    | none, some prs => rw [hsel] at h; simp at h
    | none, none => rw [hsel] at h; simp at h

theorem natDec_inj {a b : Nat} (h : natDec a = natDec b) : a = b := by
  have hchars : natDecChars a = natDecChars b := congrArg String.data h
  have ha := readNat_natDec a [] (by rfl)
  have hb := readNat_natDec b [] (by rfl)
  rw [hchars] at ha
  rw [ha] at hb
  simp only [Option.some.injEq, Prod.mk.injEq] at hb
  omega

theorem msgLoop_enum (rows : List Row) :
    ∀ (i : Nat) (acc : Dataset)
      (_hfresh : ∀ j, i ≤ j → dictMem (JValue.str (natDec j)) acc = false),
    msgLoop i acc rows =
      acc ++ (List.enumFrom i rows).map (fun p => (JValue.str (natDec p.1), p.2)) := by
  induction rows with
  | nil => intro i acc hfresh; simp [msgLoop]
  | cons r rs ih =>
    intro i acc hfresh
    simp only [msgLoop]
    rw [dictInsert_fresh (hfresh i (by omega)) r]
    rw [ih (i + 1) _ (by
      intro j hj
      rw [dictMem_append]
      simp only [hfresh j (by omega), Bool.false_or, dictMem, Bool.or_false]
      simp only [decide_eq_false_iff_not]
      intro hc
      have h2 : natDec i = natDec j := by injection hc
      have := natDec_inj h2
      omega)]
    simp [List.enumFrom]

/-! ## Groundwork: substring occurrence in diagnostics -/

theorem headMatches_append (e b : List Char) : headMatches (e ++ b) e = true := by
  induction e with
  | nil => simp [headMatches]
  | cons c cs ih =>
    simp only [List.cons_append, headMatches, if_pos rfl]
    exact ih

theorem containsSub_append_mid (a e b : List Char) :
    containsSub (a ++ (e ++ b)) e = true := by
  induction a with
  | nil =>
    match e with
    | [] =>
      match b with
      | [] => rfl
      | c :: t => simp [containsSub, headMatches]
    | c :: t =>
      simp only [List.nil_append, List.cons_append, containsSub, Bool.or_eq_true]
      left
      have := headMatches_append (c :: t) b
      simpa using this
  | cons x a2 ih =>
    simp only [List.cons_append, containsSub, Bool.or_eq_true]
    right
    exact ih

theorem strContains_mid (pre e suf : String) :
    strContains (pre ++ e ++ suf) e = true := by
  have hdata : (pre ++ e ++ suf).data = pre.data ++ (e.data ++ suf.data) := by
    cases pre
    cases e
    cases suf
    simp [String.data]
  simp only [strContains, hdata]
  exact containsSub_append_mid _ _ _

/-! ## Groundwork: the pipeline driver -/

theorem from_env_ok_fields (env : EnvConfig) (p : ContainerParams)
    (h : from_env env = .ok p) :
    p = ⟨env.dev_mode, env.query, env.query_signature, env.compute_job_id,
      env.data_refiner_id, env.query_params⟩ := by
  simp only [from_env] at h
  split at h
  · exact Except.noConfusion h
  · simp only [Except.ok.injEq] at h
    exact h.symm

theorem from_env_ok_validate (env : EnvConfig) (p : ContainerParams)
    (h : from_env env = .ok p) (hdev : p.dev_mode = false) :
    validate_production_mode p = true := by
  have hf := from_env_ok_fields env p h
  subst hf
  simp only at hdev
  simp only [from_env] at h
  split at h
  · exact Except.noConfusion h
  · rename_i hcond
    simp only [hdev, Bool.not_false, Bool.true_and, Bool.not_eq_true',
      Bool.not_eq_false] at hcond
    simp only [validate_production_mode]
    exact hcond

theorem process_results_fail (db : Option (List Row)) (mkdirOk : Bool)
    (prior : Option String)
    (h : (process_results db mkdirOk prior).2 = false) :
    (process_results db mkdirOk prior).1 = prior := by
  cases hg : get_submission_chats db with
  | error e => simp [process_results, hg]
  | ok chats =>
    match db, hg with
    | none, hg => simp [get_submission_chats] at hg
    | some table, hg =>
      obtain ⟨hm, htable⟩ := get_submission_chats_ok_empty table chats hg
      subst hm
      simp only [process_results, hg, List.isEmpty_nil, if_pos] at h ⊢
      cases mkdirOk with
      | true => simp [save_stats_to_json, dumpDataset] at h
      | false => simp [save_stats_to_json]

theorem process_results_empty (prior : Option String) :
    process_results (some []) true prior = (some "\x7b\x7d", true) := by
  rfl

theorem queryErrorMsg_contains_error (o : QueryOutcome) (e : String)
    (herr : o.error = some e) : strContains (queryErrorMsg o) e = true := by
  obtain ⟨suf, hs⟩ : ∃ suf, queryErrorMsg o = "Error executing query: " ++ e ++ suf := by
    simp only [queryErrorMsg, herr, optStr]
    rcases hsc : o.status_code with _ | c <;> rcases hd : o.data with _ | d
    · exact ⟨"", by simp⟩
    · exact ⟨"\nResponse data: " ++ d, by simp [String.append_assoc]⟩
    · by_cases hc : c = 0
      · exact ⟨"", by simp [hc]⟩
      · exact ⟨" (Status code: " ++ intDec c ++ ")", by simp [hc, String.append_assoc]⟩
    · by_cases hc : c = 0
      · exact ⟨"\nResponse data: " ++ d, by simp [hc, String.append_assoc]⟩
      · exact ⟨" (Status code: " ++ (intDec c ++ (")\nResponse data: " ++ d)),
          by simp [hc, String.append_assoc]⟩
  rw [hs]
  exact strContains_mid _ _ _

theorem queryErrorMsg_contains_status (o : QueryOutcome) (c : Int)
    (hsc : o.status_code = some c) (hc : c ≠ 0) :
    strContains (queryErrorMsg o) (intDec c) = true := by
  obtain ⟨pre, suf, hs⟩ : ∃ pre suf, queryErrorMsg o = pre ++ intDec c ++ suf := by
    simp only [queryErrorMsg, hsc]
    rcases hd : o.data with _ | d
    · exact ⟨"Error executing query: " ++ optStr o.error ++ " (Status code: ", ")",
        by simp [hc, String.append_assoc]⟩
    · exact ⟨"Error executing query: " ++ optStr o.error ++ " (Status code: ",
        ")\nResponse data: " ++ d, by simp [hc, String.append_assoc]⟩
  rw [hs]
  exact strContains_mid _ _ _

/-! ## The claims -/

/-- C1: the claim states that the chat-centric extraction succeeds on every
non-empty result set and keys records by `SubmissionChatID`.  The code's own
docstring promises the same, but the `SELECT` omits `SubmissionChatID`, so
`row_dict['SubmissionChatID']` raises `KeyError` for every row: evaluated at
a one-row table carrying all schema columns (including `SubmissionChatID`),
extraction errors and the run exits 3 leaving the artifact untouched. -/
theorem c1_chat_extraction_keyerror :
    get_submission_chats (some [[("SubmissionChatID", JValue.str "chat-1"),
        ("FirstMessageDate", JValue.str "2024-01-01"),
        ("LastMessageDate", JValue.str "2024-01-02"),
        ("ParticipantCount", JValue.int 3)]])
      = .error "KeyError: SubmissionChatID" ∧
    runMain ⟨true, none, none, none, none, none⟩ ⟨true, none, none, none⟩
        (some [[("SubmissionChatID", JValue.str "chat-1"),
          ("FirstMessageDate", JValue.str "2024-01-01"),
          ("LastMessageDate", JValue.str "2024-01-02"),
          ("ParticipantCount", JValue.int 3)]]) true (some "OLD")
      = ⟨3, false, true, some "OLD", []⟩ :=
  ⟨rfl, rfl⟩

/-- C2: in production mode with the query text missing (absent or empty),
parameter loading raises, the worker exits 1, the QueryEngine is never
contacted, extraction never runs, and the artifact keeps its prior content.
(`ContainerParams.from_env` is modelled from the spec.) -/
theorem c2_missing_query_production (env : EnvConfig) (outcome : QueryOutcome)
    (db : Option (List Row)) (mkdirOk : Bool) (prior : Option String)
    (hprod : env.dev_mode = false)
    (hq : env.query = none ∨ env.query = some "") :
    (runMain env outcome db mkdirOk prior).exitCode = 1 ∧
    (runMain env outcome db mkdirOk prior).engineCalled = false ∧
    (runMain env outcome db mkdirOk prior).extractionRan = false ∧
    (runMain env outcome db mkdirOk prior).artifact = prior := by
  have hpres : present env.query = false := by
    rcases hq with hq | hq
    · simp [present, hq]
    · simp only [present, hq]
      decide
  have hfe : from_env env = .error "ContainerParamError" := by
    simp [from_env, hprod, queryFieldsOk, hpres]
  simp [runMain, hfe]

/-- Witness for C2 at a concrete production environment with no query text. -/
theorem c2_witness :
    (runMain ⟨false, none, some "s", some "j", some "r", some "p"⟩
      ⟨true, none, none, none⟩ (some []) true (some "OLD")).exitCode = 1 ∧
    (runMain ⟨false, none, some "s", some "j", some "r", some "p"⟩
      ⟨true, none, none, none⟩ (some []) true (some "OLD")).engineCalled = false ∧
    (runMain ⟨false, none, some "s", some "j", some "r", some "p"⟩
      ⟨true, none, none, none⟩ (some []) true (some "OLD")).extractionRan = false ∧
    (runMain ⟨false, none, some "s", some "j", some "r", some "p"⟩
      ⟨true, none, none, none⟩ (some []) true (some "OLD")).artifact = some "OLD" :=
  c2_missing_query_production _ _ _ _ _ rfl (Or.inl rfl)

/-- C3 (counterexample): writing is not all-or-nothing per invocation of
`save_stats_to_json`.  With a dataset holding a BLOB value, the call
raises (returns abnormally), yet the file neither keeps its prior content
nor holds a complete serialization (none exists): `open(path, "w")`
truncated it and the encoder wrote a strict prefix before the TypeError. -/
theorem c3_counterexample_partial_write :
    (save_stats_to_json [(JValue.str "k", [("a", JValue.blob [1])])]
      true (some "OLD")).2 = false ∧
    (save_stats_to_json [(JValue.str "k", [("a", JValue.blob [1])])]
      true (some "OLD")).1 ≠ some "OLD" ∧
    dumps [(JValue.str "k", [("a", JValue.blob [1])])] = none := by
  decide

/-- C3 (amended): in every run of the worker itself, a failing run (any
nonzero exit code) leaves the artifact file with its prior content — with
the active chat strategy the only dataset ever written is the empty one,
whose serialization cannot fail, and all other failures happen before the
file is opened. -/
theorem c3_failed_runs_keep_prior_artifact (env : EnvConfig) (outcome : QueryOutcome)
    (db : Option (List Row)) (mkdirOk : Bool) (prior : Option String)
    (h : (runMain env outcome db mkdirOk prior).exitCode ≠ 0) :
    (runMain env outcome db mkdirOk prior).artifact = prior := by
  cases hfe : from_env env with
  | error e => simp [runMain, hfe]
  | ok p =>
    simp only [runMain, hfe] at h ⊢
    by_cases hdev : p.dev_mode = true
    · simp only [hdev, if_pos, runExtraction] at h ⊢
      by_cases hpr : (process_results db mkdirOk prior).2 = true
      · simp [hpr] at h
      · simp only [Bool.not_eq_true] at hpr
        simp [hpr, process_results_fail db mkdirOk prior hpr]
    · simp only [hdev, if_neg, runExtraction] at h ⊢
      by_cases her : (execute_query p outcome).ok = true
      · simp only [her, if_pos] at h ⊢
        by_cases hpr : (process_results db mkdirOk prior).2 = true
        · simp [hpr] at h
        · simp only [Bool.not_eq_true] at hpr
          simp [hpr, process_results_fail db mkdirOk prior hpr]
      · simp only [Bool.not_eq_true] at her
        simp [her]

/-- Witness for C3 (amended) at a failing concrete run (exit 1). -/
theorem c3_witness :
    (runMain ⟨false, none, none, none, none, none⟩ ⟨true, none, none, none⟩
      (some []) true (some "OLD")).exitCode ≠ 0 ∧
    (runMain ⟨false, none, none, none, none, none⟩ ⟨true, none, none, none⟩
      (some []) true (some "OLD")).artifact = some "OLD" :=
  ⟨by decide, c3_failed_runs_keep_prior_artifact _ _ _ _ _ (by decide)⟩

/-- C4 (counterexample): for a valid production configuration and the
outcome `{success: false, error: "timeout", status_code: 0}`, the status
code is present but the diagnostic does not contain it — the code checks
truthiness (`if query_result.status_code:`), so a zero status code is
dropped from the message, against the claim's "when present". -/
theorem c4_counterexample_status_zero :
    from_env ⟨false, some "q", some "s", some "j", some "r", some "p"⟩ =
      .ok ⟨false, some "q", some "s", some "j", some "r", some "p"⟩ ∧
    (runMain ⟨false, some "q", some "s", some "j", some "r", some "p"⟩
      ⟨false, some "timeout", some 0, none⟩ (some []) true (some "OLD")).exitCode = 2 ∧
    (⟨false, some "timeout", some 0, none⟩ : QueryOutcome).status_code = some 0 ∧
    strContains (queryErrorMsg ⟨false, some "timeout", some 0, none⟩) "0" = false :=
  ⟨rfl, rfl, rfl, rfl⟩

/-- C4 (amended): for every valid production configuration, if the
QueryEngine reports failure, extraction never runs, the process exits 2,
the artifact keeps its prior content, and the diagnostic message contains
the outcome's error text and, when present and nonzero, its status code. -/
theorem c4_query_failure_aborts (env : EnvConfig) (p : ContainerParams)
    (outcome : QueryOutcome) (db : Option (List Row)) (mkdirOk : Bool)
    (prior : Option String)
    (hfe : from_env env = .ok p) (hprod : p.dev_mode = false)
    (hfail : outcome.success = false) :
    (runMain env outcome db mkdirOk prior).exitCode = 2 ∧
    (runMain env outcome db mkdirOk prior).extractionRan = false ∧
    (runMain env outcome db mkdirOk prior).artifact = prior ∧
    queryErrorMsg outcome ∈ (runMain env outcome db mkdirOk prior).diagnostics ∧
    (∀ e, outcome.error = some e → strContains (queryErrorMsg outcome) e = true) ∧
    (∀ c, outcome.status_code = some c → c ≠ 0 →
      strContains (queryErrorMsg outcome) (intDec c) = true) := by
  have hval := from_env_ok_validate env p hfe hprod
  have hexec : execute_query p outcome = ⟨false, true, [queryErrorMsg outcome]⟩ := by
    simp [execute_query, hval, hfail]
  refine ⟨?_, ?_, ?_, ?_, ?_, ?_⟩
  · simp [runMain, hfe, hprod, hexec]
  · simp [runMain, hfe, hprod, hexec]
  · simp [runMain, hfe, hprod, hexec]
  · simp [runMain, hfe, hprod, hexec]
  · exact fun e he => queryErrorMsg_contains_error outcome e he
  · exact fun c hc hc0 => queryErrorMsg_contains_status outcome c hc hc0

/-- Witness for C4 (amended) at a concrete valid production run whose
outcome is `{success: false, error: "timeout", status_code: 504}`. -/
theorem c4_witness :
    (runMain ⟨false, some "q", some "s", some "j", some "r", some "p"⟩
      ⟨false, some "timeout", some 504, none⟩ (some []) true (some "OLD")).exitCode = 2 ∧
    (runMain ⟨false, some "q", some "s", some "j", some "r", some "p"⟩
      ⟨false, some "timeout", some 504, none⟩ (some []) true (some "OLD")).extractionRan
      = false ∧
    (runMain ⟨false, some "q", some "s", some "j", some "r", some "p"⟩
      ⟨false, some "timeout", some 504, none⟩ (some []) true (some "OLD")).artifact
      = some "OLD" ∧
    queryErrorMsg ⟨false, some "timeout", some 504, none⟩ ∈
      (runMain ⟨false, some "q", some "s", some "j", some "r", some "p"⟩
        ⟨false, some "timeout", some 504, none⟩ (some []) true (some "OLD")).diagnostics ∧
    (∀ e, (⟨false, some "timeout", some 504, none⟩ : QueryOutcome).error = some e →
      strContains (queryErrorMsg ⟨false, some "timeout", some 504, none⟩) e = true) ∧
    (∀ c, (⟨false, some "timeout", some 504, none⟩ : QueryOutcome).status_code = some c →
      c ≠ 0 → strContains (queryErrorMsg ⟨false, some "timeout", some 504, none⟩)
        (intDec c) = true) :=
  c4_query_failure_aborts _ _ _ _ _ _ rfl rfl rfl

/-- C5: with zero rows in `results` (and the output directory creatable),
a run that reaches extraction — development mode, or production with a
successful query — exits 0 and the artifact file content is exactly
`"{}"`; the empty result set is a valid outcome, not an error. -/
theorem c5_empty_results (env : EnvConfig) (p : ContainerParams)
    (outcome : QueryOutcome) (prior : Option String)
    (hfe : from_env env = .ok p)
    (hmode : p.dev_mode = true ∨ outcome.success = true) :
    (runMain env outcome (some []) true prior).exitCode = 0 ∧
    (runMain env outcome (some []) true prior).artifact = some "\x7b\x7d" := by
  have hpe := process_results_empty prior
  by_cases hdev : p.dev_mode = true
  · simp [runMain, hfe, hdev, runExtraction, hpe]
  · have hsucc : outcome.success = true := by tauto
    have hval := from_env_ok_validate env p hfe (by simpa using hdev)
    simp [runMain, hfe, hdev, execute_query, hval, hsucc, runExtraction, hpe]

/-- Witness for C5 at a concrete development-mode run over an empty table. -/
theorem c5_witness :
    (runMain ⟨true, none, none, none, none, none⟩ ⟨false, none, none, none⟩
      (some []) true none).exitCode = 0 ∧
    (runMain ⟨true, none, none, none, none, none⟩ ⟨false, none, none, none⟩
      (some []) true none).artifact = some "\x7b\x7d" :=
  c5_empty_results ⟨true, none, none, none, none, none⟩
    ⟨true, none, none, none, none, none⟩ ⟨false, none, none, none⟩ none rfl
    (Or.inl rfl)

/-- C6: in development mode the query-execution stage never runs — the
QueryEngine is never contacted, whatever its outcome would be — and the
pipeline proceeds directly to extraction. -/
theorem c6_dev_mode_skips_query (env : EnvConfig) (outcome : QueryOutcome)
    (db : Option (List Row)) (mkdirOk : Bool) (prior : Option String)
    (hdev : env.dev_mode = true) :
    (runMain env outcome db mkdirOk prior).engineCalled = false ∧
    (runMain env outcome db mkdirOk prior).extractionRan = true := by
  have hfe : from_env env = .ok ⟨env.dev_mode, env.query, env.query_signature,
      env.compute_job_id, env.data_refiner_id, env.query_params⟩ := by
    simp [from_env, hdev]
  simp only [runMain, hfe, hdev, if_pos, runExtraction]
  split <;> simp

/-- Witness for C6 at a concrete development-mode run. -/
theorem c6_witness :
    (runMain ⟨true, none, none, none, none, none⟩ ⟨false, some "down", some 500, none⟩
      (some [[("x", JValue.int 1)]]) true none).engineCalled = false ∧
    (runMain ⟨true, none, none, none, none, none⟩ ⟨false, some "down", some 500, none⟩
      (some [[("x", JValue.int 1)]]) true none).extractionRan = true :=
  c6_dev_mode_skips_query _ _ _ _ _ rfl

/-- C7: `execute_query` returns true iff validation passed and the
QueryOutcome's success flag is true; when production-mode validation
fails it returns false without contacting the QueryEngine.  The model is
total: query failure is signalled purely through the returned boolean. -/
theorem c7_execute_query_contract (p : ContainerParams) (o : QueryOutcome) :
    ((execute_query p o).ok = true ↔
      (validate_production_mode p = true ∧ o.success = true)) ∧
    (validate_production_mode p = false →
      (execute_query p o).ok = false ∧ (execute_query p o).engineCalled = false) := by
  cases hv : validate_production_mode p <;> cases hs : o.success <;>
    simp [execute_query, hv, hs]

/-- Witness for C7 at a concrete invalid configuration. -/
theorem c7_witness :
    validate_production_mode ⟨false, none, none, none, none, none⟩ = false ∧
    (execute_query ⟨false, none, none, none, none, none⟩
      ⟨true, none, none, none⟩).ok = false ∧
    (execute_query ⟨false, none, none, none, none, none⟩
      ⟨true, none, none, none⟩).engineCalled = false :=
  ⟨by decide, (c7_execute_query_contract _ _).2 (by decide)⟩

/-- C8: the synthetic-index strategy — given the rows the query returns
(the `SenderID` projection, at most the LIMIT of 10), the resulting
mapping is exactly the enumeration of those rows: key `str(i)` maps to
row `i`, 0-based, in source return order. -/
theorem c8_synthetic_index (table qrows : List Row)
    (hproj : projectTable ["SenderID"] table = some qrows)
    (hlen : qrows.length ≤ 10) :
    get_chat_messages (some table) =
      .ok ((List.enumFrom 0 qrows).map (fun p => (JValue.str (natDec p.1), p.2))) := by
  simp only [get_chat_messages, hproj]
  rw [List.take_of_length_le hlen]
  rw [msgLoop_enum qrows 0 [] (fun j _ => rfl)]
  simp

/-- Witness for C8 at a concrete two-row table. -/
theorem c8_witness :
    projectTable ["SenderID"] [[("SenderID", JValue.str "alice")],
      [("SenderID", JValue.int 7)]] = some [[("SenderID", JValue.str "alice")],
      [("SenderID", JValue.int 7)]] ∧
    ([[("SenderID", JValue.str "alice")], [("SenderID", JValue.int 7)]] :
      List Row).length ≤ 10 ∧
    get_chat_messages (some [[("SenderID", JValue.str "alice")],
      [("SenderID", JValue.int 7)]]) =
      .ok ((List.enumFrom 0 [[("SenderID", JValue.str "alice")],
        [("SenderID", JValue.int 7)]]).map
        (fun p => (JValue.str (natDec p.1), p.2))) :=
  ⟨rfl, by decide, c8_synthetic_index _ _ rfl (by decide)⟩

/-- C9: round-trip — for a dataset with serializable, non-empty,
non-colliding keys and serializable values, the artifact writer completes,
and parsing the written JSON back yields exactly the in-memory mapping
with its keys stringified. -/
theorem c9_round_trip (d : Dataset) (prior : Option String)
    (hkeys : ∀ p ∈ d, (stringifyKey p.1).isSome = true)
    (hne : ∀ p ∈ d, stringifyKey p.1 ≠ some "")
    (hnodup : (d.map (fun p => stringifyKey p.1)).Nodup)
    (hser : ∀ p ∈ d, ∀ q ∈ p.2, (dumpScalar q.2).isSome = true) :
    ∃ s, save_stats_to_json d true prior = (some s, true) ∧
      parseArtifact s = some (stringified d) := by
  obtain ⟨s, hd, hp⟩ := parseArtifact_dumps d hkeys hser
  refine ⟨s, ?_, hp⟩
  simp only [dumps] at hd
  simp only [save_stats_to_json, if_true]
  split at hd
  · rename_i hok
    simp only [Option.some.injEq] at hd
    rw [← hd, hok]
  · exact absurd hd (by simp)

/-- Witness for C9 at a concrete dataset with a string key, an int key, an
escaped string value, a negative int and a null. -/
theorem c9_witness :
    (∀ p ∈ [((JValue.str "a"), [("x", JValue.int 1), ("y", JValue.str "h\"i\n")]),
        ((JValue.int (-2)), [("z", JValue.null)])],
      (stringifyKey p.1).isSome = true) ∧
    (∀ p ∈ [((JValue.str "a"), [("x", JValue.int 1), ("y", JValue.str "h\"i\n")]),
        ((JValue.int (-2)), [("z", JValue.null)])],
      stringifyKey p.1 ≠ some "") ∧
    (([((JValue.str "a"), [("x", JValue.int 1), ("y", JValue.str "h\"i\n")]),
        ((JValue.int (-2)), [("z", JValue.null)])] : Dataset).map
      (fun p => stringifyKey p.1)).Nodup ∧
    (∀ p ∈ [((JValue.str "a"), [("x", JValue.int 1), ("y", JValue.str "h\"i\n")]),
        ((JValue.int (-2)), [("z", JValue.null)])],
      ∀ q ∈ p.2, (dumpScalar q.2).isSome = true) ∧
    ∃ s, save_stats_to_json [((JValue.str "a"),
        [("x", JValue.int 1), ("y", JValue.str "h\"i\n")]),
        ((JValue.int (-2)), [("z", JValue.null)])] true none = (some s, true) ∧
      parseArtifact s = some (stringified [((JValue.str "a"),
        [("x", JValue.int 1), ("y", JValue.str "h\"i\n")]),
        ((JValue.int (-2)), [("z", JValue.null)])]) :=
  ⟨by decide, by decide, by decide, by decide,
    c9_round_trip _ none (by decide) (by decide) (by decide) (by decide)⟩

/-- C10 (counterexample): the claim covers the chat-identifier strategy,
but `get_submission_chats` fails (KeyError) on two rows sharing
`SubmissionChatID` instead of overwriting — the key column is missing
from its projection. -/
theorem c10_counterexample_chats_fail :
    get_submission_chats (some [[("SubmissionChatID", JValue.str "c"),
        ("FirstMessageDate", JValue.str "a"), ("LastMessageDate", JValue.str "b"),
        ("ParticipantCount", JValue.int 1)],
      [("SubmissionChatID", JValue.str "c"),
        ("FirstMessageDate", JValue.str "x"), ("LastMessageDate", JValue.str "y"),
        ("ParticipantCount", JValue.int 2)]]) = .error "KeyError: SubmissionChatID" :=
  rfl

/-- C10 (amended): for the user- and submission-keyed strategies (whose
key column is part of the projection), rows sharing a key value do not
make extraction fail: later rows silently overwrite earlier ones, and the
mapping holds exactly the attributes of the last row with each key in
source return order. -/
theorem c10_last_write_wins (table : List Row) :
    ((∀ r ∈ table, (rowGet r "UserID").isSome = true) →
      ∃ m, get_users (some table) = .ok m ∧
        ∀ k, dictFind k m = lastWith "UserID" k table) ∧
    (∀ ps, projectTable submissionCols table = some ps →
      (∀ r ∈ ps, (rowGet r "SubmissionID").isSome = true) →
      ∃ m, get_submissions (some table) = .ok m ∧
        ∀ k, dictFind k m = lastWith "SubmissionID" k ps) := by
  constructor
  · intro h
    obtain ⟨m, hm, hf⟩ := extractLoop_lastWith "UserID" table [] h
    refine ⟨m, by simpa [get_users] using hm, fun k => ?_⟩
    rw [hf k]
    cases lastWith "UserID" k table <;> simp [Option.elim, dictFind]
  · intro ps hps h
    obtain ⟨m, hm, hf⟩ := extractLoop_lastWith "SubmissionID" ps [] h
    refine ⟨m, by simp [get_submissions, hps, hm], fun k => ?_⟩
    rw [hf k]
    cases lastWith "SubmissionID" k ps <;> simp [Option.elim, dictFind]

/-- Witness for C10 (amended) at a concrete table with a duplicated
UserID: the mapping keeps the last row's attributes. -/
theorem c10_witness :
    (∀ r ∈ [[("UserID", JValue.int 1), ("a", JValue.str "first")],
      [("UserID", JValue.int 1), ("a", JValue.str "last")]],
      (rowGet r "UserID").isSome = true) ∧
    ∃ m, get_users (some [[("UserID", JValue.int 1), ("a", JValue.str "first")],
        [("UserID", JValue.int 1), ("a", JValue.str "last")]]) = .ok m ∧
      ∀ k, dictFind k m = lastWith "UserID" k
        [[("UserID", JValue.int 1), ("a", JValue.str "first")],
          [("UserID", JValue.int 1), ("a", JValue.str "last")]] :=
  ⟨by decide, (c10_last_write_wins _).1 (by decide)⟩

end Worker
